import Mathlib

/-!
# Verification of the LXMF vanity address generator

Shallow embedding of `main.go` from CyberKiska/lxmf-vanity-address-generator.
Bytes are modelled as `Nat` values below 256, byte arrays as `List Nat`,
32-bit words as `Nat` values below 2^32 with explicit reduction `% 2^32`.

The Go code calls `sha256.Sum256` from the standard library; we embed
SHA-256 (FIPS 180-4) executably over byte lists so that every derived
quantity can be computed.
-/

namespace LXMF

/-! ## SHA-256 (embedding of the `crypto/sha256` primitive used by the code) -/

/-- Rotate a 32-bit word right by `n` positions. -/
def rotr32 (n x : Nat) : Nat :=
  ((x >>> n) ||| (x <<< (32 - n))) % 4294967296

/-- Addition modulo 2^32. -/
def add32 (a b : Nat) : Nat := (a + b) % 4294967296

/-- The 64 SHA-256 round constants. -/
def shaK : List Nat :=
  [1116352408, 1899447441, 3049323471, 3921009573,
   961987163, 1508970993, 2453635748, 2870763221,
   3624381080, 310598401, 607225278, 1426881987,
   1925078388, 2162078206, 2614888103, 3248222580,
   3835390401, 4022224774, 264347078, 604807628,
   770255983, 1249150122, 1555081692, 1996064986,
   2554220882, 2821834349, 2952996808, 3210313671,
   3336571891, 3584528711, 113926993, 338241895,
   666307205, 773529912, 1294757372, 1396182291,
   1695183700, 1986661051, 2177026350, 2456956037,
   2730485921, 2820302411, 3259730800, 3345764771,
   3516065817, 3600352804, 4094571909, 275423344,
   430227734, 506948616, 659060556, 883997877,
   958139571, 1322822218, 1537002063, 1747873779,
   1955562222, 2024104815, 2227730452, 2361852424,
   2428436474, 2756734187, 3204031479, 3329325298]

/-- The initial SHA-256 hash state. -/
def shaH0 : List Nat :=
  [1779033703, 3144134277, 1013904242, 2773480762,
   1359893119, 2600822924, 528734635, 1541459225]

/-- Group a byte list into big-endian 32-bit words (four bytes per word). -/
def bytesToWords : List Nat → List Nat
  | a :: b :: c :: d :: rest =>
      (a * 16777216 + b * 65536 + c * 256 + d) % 4294967296 :: bytesToWords rest
  | _ => []

/-- Extend the message schedule: `rws` is the schedule so far in reverse
order (most recent word first); produce `n` further words. -/
def extendSchedule : Nat → List Nat → List Nat
  | 0, rws => rws
  | n + 1, rws =>
      let w2 := rws.getD 1 0
      let w7 := rws.getD 6 0
      let w15 := rws.getD 14 0
      let w16 := rws.getD 15 0
      let s0 := (rotr32 7 w15) ^^^ (rotr32 18 w15) ^^^ (w15 >>> 3)
      let s1 := (rotr32 17 w2) ^^^ (rotr32 19 w2) ^^^ (w2 >>> 10)
      extendSchedule n (((w16 + s0 + w7 + s1) % 4294967296) :: rws)

/-- The 64-word message schedule of one 64-byte block. -/
def messageSchedule (block : List Nat) : List Nat :=
  (extendSchedule 48 (bytesToWords block).reverse).reverse

/-- One round of the SHA-256 compression function: fold the round constants
and schedule words through the eight working variables. -/
def compressWords : List Nat → List Nat → List Nat → List Nat
  | k :: ks, w :: ws, [a, b, c, d, e, f, g, h] =>
      let S1 := (rotr32 6 e) ^^^ (rotr32 11 e) ^^^ (rotr32 25 e)
      let ch := (e &&& f) ^^^ ((e ^^^ 4294967295) &&& g)
      let temp1 := (h + S1 + ch + k + w) % 4294967296
      let S0 := (rotr32 2 a) ^^^ (rotr32 13 a) ^^^ (rotr32 22 a)
      let maj := (a &&& b) ^^^ (a &&& c) ^^^ (b &&& c)
      let temp2 := (S0 + maj) % 4294967296
      compressWords ks ws
        [(temp1 + temp2) % 4294967296, a, b, c, (d + temp1) % 4294967296, e, f, g]
  | _, _, hs => hs

/-- Process one 64-byte block: compress and add into the running state. -/
def processBlock (hs block : List Nat) : List Nat :=
  List.zipWith add32 hs (compressWords shaK (messageSchedule block) hs)

/-- Process a list of blocks left to right. -/
def processBlocks : List Nat → List (List Nat) → List Nat
  | hs, [] => hs
  | hs, b :: bs => processBlocks (processBlock hs b) bs

/-- Split a byte list into 64-byte chunks.  The first argument is fuel
(any bound on the number of chunks); structural recursion on it keeps the
definition kernel-reducible. -/
def toBlocksFuel : Nat → List Nat → List (List Nat)
  | 0, _ => []
  | _ + 1, [] => []
  | fuel + 1, x :: xs => ((x :: xs).take 64) :: toBlocksFuel fuel ((x :: xs).drop 64)

/-- Split a byte list into 64-byte chunks. -/
def toBlocks (l : List Nat) : List (List Nat) := toBlocksFuel l.length l

/-- Big-endian byte expansion of `v` to `n` bytes. -/
def natToBytesBE : Nat → Nat → List Nat
  | 0, _ => []
  | n + 1, v => natToBytesBE n (v / 256) ++ [v % 256]

/-- SHA-256 padding: append `0x80`, zero bytes to 56 mod 64, then the
64-bit big-endian bit length. -/
def padMessage (msg : List Nat) : List Nat :=
  let L := msg.length
  let z := (119 - L % 64) % 64
  msg ++ [0x80] ++ List.replicate z 0 ++ natToBytesBE 8 (L * 8)

/-- Serialize the eight state words to 32 bytes, big-endian. -/
def wordsToBytes (ws : List Nat) : List Nat :=
  (ws.map (fun w => [w / 16777216 % 256, w / 65536 % 256, w / 256 % 256, w % 256])).flatten

/-- SHA-256 of a byte list (the `sha256.Sum256` the Go code calls). -/
def sha256 (msg : List Nat) : List Nat :=
  wordsToBytes (processBlocks shaH0 (toBlocks (padMessage msg)))

/-- The ASCII bytes of the string `"lxmf.delivery"`. -/
def lxmfDeliveryBytes : List Nat :=
  [108, 120, 109, 102, 46, 100, 101, 108, 105, 118, 101, 114, 121]

/-! ## Data model (`Identity` struct, `main.go` lines 44–51) -/

/-- `Identity` from `main.go`: X25519 and Ed25519 key pairs plus the two
derived 16-byte truncated hashes.  Go's fixed-size arrays are modelled as
byte lists whose lengths are stated as hypotheses where needed. -/
structure Identity where
  X25519Private : List Nat
  X25519Public : List Nat
  Ed25519Seed : List Nat
  Ed25519Public : List Nat
  Hash : List Nat
  Address : List Nat
deriving Repr, DecidableEq

/-! ## Go primitive: `copy(dst[pos:], src)` into a fixed-size buffer -/

/-- Go's `copy` of `src` into `dst` starting at byte offset `pos`:
positions `pos ≤ i < pos + src.length` take bytes of `src` (clipped to the
length of `dst`), all other positions keep the bytes of `dst`. -/
def goCopy (dst : List Nat) (pos : Nat) (src : List Nat) : List Nat :=
  (List.range dst.length).map fun i =>
    if pos ≤ i ∧ i < pos + src.length then src.getD (i - pos) 0 else dst.getD i 0

/-! ## KeyPairGenerator: clamping (`clampX25519`, lines 231–235) -/

/-- `clampX25519`: clear the three lowest bits of byte 0, clear the top
bit of byte 31, set bit 6 of byte 31 (`&= 248`, `&= 127`, `|= 64`). -/
def clampX25519 (key : List Nat) : List Nat :=
  let k0 := key.set 0 ((key.getD 0 0) &&& 248)
  let k1 := k0.set 31 ((k0.getD 31 0) &&& 127)
  k1.set 31 ((k1.getD 31 0) ||| 64)

/-! ## AddressDeriver: the hash chain of `worker` (lines 172–211) -/

/-- Lines 173–174: `nameHashFull := sha256.Sum256([]byte("lxmf.delivery"))`,
`nameHash := nameHashFull[:10]`. -/
def nameHash : List Nat := (sha256 lxmfDeliveryBytes).take 10

/-- Lines 198–200: build the 64-byte `publicKey` buffer by copying the
X25519 public key into bytes 0–31 and the Ed25519 public key into
bytes 32–63. -/
def workerPublicKeyBuf (xpub epub : List Nat) : List Nat :=
  goCopy (goCopy (List.replicate 64 0) 0 xpub) 32 epub

/-- Lines 202–203: `identity.Hash` is the first 16 bytes of the SHA-256 of
the `publicKey` buffer. -/
def workerHash (xpub epub : List Nat) : List Nat :=
  (sha256 (workerPublicKeyBuf xpub epub)).take 16

/-- Lines 206–208: build the 26-byte `addrHashMaterial` buffer from the
10-byte name hash and the 16-byte identity hash. -/
def workerAddrMaterial (hash : List Nat) : List Nat :=
  goCopy (goCopy (List.replicate 26 0) 0 nameHash) 10 hash

/-- Lines 210–211: `identity.Address` is the first 16 bytes of the SHA-256
of `addrHashMaterial`. -/
def workerAddress (hash : List Nat) : List Nat :=
  (sha256 (workerAddrMaterial hash)).take 16

/-- Lines 187–211: the full identity construction of one worker iteration,
from the 64 random bytes.  The elliptic-curve primitives
`curve25519.ScalarBaseMult` and `ed25519.NewKeyFromSeed(..).Public()` are
external library calls, passed in as opaque functions `scalarBaseMult`
and `edPublicOfSeed` (spec §4.1 treats them as opaque primitives). -/
def deriveIdentity (scalarBaseMult edPublicOfSeed : List Nat → List Nat)
    (randBuf : List Nat) : Identity :=
  let xpriv := clampX25519 (randBuf.take 32)
  let seed := (randBuf.drop 32).take 32
  let xpub := scalarBaseMult xpriv
  let epub := edPublicOfSeed seed
  let hash := workerHash xpub epub
  { X25519Private := xpriv
    X25519Public := xpub
    Ed25519Seed := seed
    Ed25519Public := epub
    Hash := hash
    Address := workerAddress hash }

/-! ## Spec-side address derivation (written from spec §4.2's words, to be
compared with the worker's code above) -/

/-- Spec §4.2 step 1: `name_hash = Hash(ASCII "lxmf.delivery")`, keep
first 10 bytes. -/
def spec_nameHash : List Nat := (sha256 lxmfDeliveryBytes).take 10

/-- Spec §4.2 step 2: `fingerprint = Hash(exchange_public ++
signing_public)`, keep first 16 bytes (64-byte input, exchange key
first). -/
def spec_fingerprint (xpub epub : List Nat) : List Nat :=
  (sha256 (xpub ++ epub)).take 16

/-- Spec §4.2 step 3: `address = Hash(name_hash ++ fingerprint)`, keep
first 16 bytes (26-byte input, 10-byte name hash first). -/
def spec_address (fingerprint : List Nat) : List Nat :=
  (sha256 (spec_nameHash ++ fingerprint)).take 16

/-! ## PatternMatcher (`matchesPattern`, lines 252–290) -/

/-- Nibble `i` of the address per the code's extraction rule: even index →
`(addr[i/2] >> 4) & 0x0F`, odd index → `addr[i/2] & 0x0F`. -/
def extractNibble (addr : List Nat) (i : Nat) : Nat :=
  if i % 2 == 0 then (addr.getD (i / 2) 0 >>> 4) &&& 15
  else addr.getD (i / 2) 0 &&& 15

/-- `matchesPattern`, lines 252–290: the prefix loop compares nibble `i`
of the address against `prefixNibbles[i]`; the postfix loop compares
nibble `startNibble + i` (where `startNibble = 2*len(addr) -
len(postfixNibbles)`) against `postfixNibbles[i]`; any mismatch returns
false, and an absent pattern skips its loop. -/
def matchesPattern (prefixNibbles postfixNibbles addr : List Nat) : Bool :=
  (if prefixNibbles.length > 0 then
    (List.range prefixNibbles.length).all fun i =>
      extractNibble addr i == prefixNibbles.getD i 0
  else true)
  &&
  (if postfixNibbles.length > 0 then
    let addrLen := addr.length * 2
    let startNibble := addrLen - postfixNibbles.length
    (List.range postfixNibbles.length).all fun i =>
      extractNibble addr (startNibble + i) == postfixNibbles.getD i 0
  else true)

/-- Spec-side nibble extraction (§4.3's words): even index → high nibble
of byte `i/2` (its value divided by 16), odd index → low nibble (its
value modulo 16). -/
def specNibble (addr : List Nat) (i : Nat) : Nat :=
  if i % 2 = 0 then addr.getD (i / 2) 0 / 16 else addr.getD (i / 2) 0 % 16

/-! ## Input handling (`isHex` lines 157–164, `validateInputs` 125–155,
`hexToNibbles` 238–249, and `main`'s lowercasing, lines 70–79) -/

/-- `isHex`, lines 157–164: every character is `0`–`9`, `a`–`f` or
`A`–`F`.  Strings are modelled as their list of ASCII codes
(`'0'` = 48, `'9'` = 57, `'a'` = 97, `'f'` = 102, `'A'` = 65,
`'F'` = 70). -/
def isHex (s : List Nat) : Bool :=
  s.all fun c =>
    (decide (48 ≤ c) && decide (c ≤ 57))
    || (decide (97 ≤ c) && decide (c ≤ 102))
    || (decide (65 ≤ c) && decide (c ≤ 70))

/-- `validateInputs`, lines 125–155: check the prefix (length then hex),
the postfix likewise, then that at least one is non-empty, then the
worker count; the first failing check's message is returned. -/
def validateInputs (pre post : List Nat) (workers : Int) : Option String :=
  if pre ≠ [] ∧ pre.length > 32 then
    some "prefix must be 1-32 hex characters"
  else if pre ≠ [] ∧ ¬ isHex pre then
    some "prefix must contain only hex characters [0-9a-fA-F]"
  else if post ≠ [] ∧ post.length > 32 then
    some "postfix must be 1-32 hex characters"
  else if post ≠ [] ∧ ¬ isHex post then
    some "postfix must contain only hex characters [0-9a-fA-F]"
  else if pre = [] ∧ post = [] then
    some "at least one of --prefix or --postfix must be specified"
  else if workers < 1 then
    some "workers must be at least 1"
  else
    none

/-- Outcome of `main`'s startup phase: either exit with a configuration
error before anything else runs, or proceed to spawn `workers` workers. -/
inductive MainOutcome where
  | configError (msg : String)
  | search (workers : Int)
deriving Repr, DecidableEq

/-- `main`, lines 61–103: validate first; on error print and exit (no
worker is spawned); otherwise continue to the search with the given
worker count. -/
def mainStart (pre post : List Nat) (workers : Int) : MainOutcome :=
  match validateInputs pre post workers with
  | some e => .configError e
  | none => .search workers

/-- `hexToNibbles`, lines 238–249: byte-wise map; `'0'`–`'9'` and
`'a'`–`'f'` map to their hex value, every other byte keeps the zero the
slice was allocated with. -/
def hexToNibbles (s : List Nat) : List Nat :=
  s.map fun c =>
    if 48 ≤ c ∧ c ≤ 57 then c - 48
    else if 97 ≤ c ∧ c ≤ 102 then c - 97 + 10
    else 0

/-- ASCII lowercasing as done by `strings.ToLower` on ASCII input
(`main.go` lines 70–71 lowercase both patterns before parsing):
`'A'`–`'Z'` (65–90) shift down into `'a'`–`'z'`. -/
def asciiToLower (c : Nat) : Nat :=
  if 65 ≤ c ∧ c ≤ 90 then c + 32 else c

/-- The value of a hex digit, upper or lower case (the mathematically
correct parse, used to state what pattern parsing should produce). -/
def hexDigitValue (c : Nat) : Nat :=
  if 48 ≤ c ∧ c ≤ 57 then c - 48
  else if 97 ≤ c ∧ c ≤ 102 then c - 97 + 10
  else if 65 ≤ c ∧ c ≤ 70 then c - 65 + 10
  else 0

/-! ## Persistence (`saveIdentity`, lines 329–343) -/

/-- The sequence of writes `saveIdentity` makes to the binary identity
file: first `identity.X25519Private[:]`, then `identity.Ed25519Seed[:]`,
and nothing else (lines 337–342). -/
def binaryFileWrites (id : Identity) : List (List Nat) :=
  [id.X25519Private, id.Ed25519Seed]

/-- The resulting binary file content: the writes in order. -/
def binaryFileContent (id : Identity) : List Nat :=
  (binaryFileWrites id).flatten

/-! ## One worker loop iteration (`worker`, lines 176–222) -/

/-- Result of the `rand.Read(randBuf[:])` call: 64 fresh bytes or an
error. -/
inductive RandResult where
  | ok (bytes : List Nat)
  | err
deriving Repr, DecidableEq

/-- How one pass through the worker's `for` body ends.  `stopped` and
`published` leave the loop (`return`); `retried` (the `continue` on a
failed random draw) and `continued` (no match) run the loop again. -/
inductive IterOutcome where
  | stopped
  | retried
  | published (id : Identity)
  | continued (id : Identity)
deriving DecidableEq

/-- Whether the outcome terminates the worker (a `return`). -/
def IterOutcome.isTerminal : IterOutcome → Bool
  | .stopped => true
  | .published _ => true
  | .retried => false
  | .continued _ => false

/-- One iteration of the worker loop, lines 176–222: check the `found`
flag; draw random bytes (on error, `continue`); derive the identity;
increment the shared 64-bit attempt counter; test the pattern and either
publish-and-return or loop.  Returns the new counter value and the
outcome. -/
def workerIteration (scalarBaseMult edPublicOfSeed : List Nat → List Nat)
    (preN postN : List Nat) (found : Bool) (rand : RandResult)
    (attempts : Nat) : Nat × IterOutcome :=
  if found then (attempts, .stopped)
  else
    match rand with
    | .err => (attempts, .retried)
    | .ok buf =>
        let identity := deriveIdentity scalarBaseMult edPublicOfSeed buf
        let attempts' := (attempts + 1) % 2 ^ 64
        if matchesPattern preN postN identity.Address then
          (attempts', .published identity)
        else
          (attempts', .continued identity)

/-- State of a single worker run against its own random source: still in
the loop, or returned (having possibly published an identity). -/
inductive WorkerRun where
  | running (attempts : Nat)
  | returned (attempts : Nat) (result : Option Identity)
deriving DecidableEq

/-- Run one worker for `n` iterations with the stop flag never set,
drawing iteration `k`'s randomness from `oracle k`. -/
def runWorker (scalarBaseMult edPublicOfSeed : List Nat → List Nat)
    (preN postN : List Nat) (oracle : Nat → RandResult) : Nat → WorkerRun
  | 0 => .running 0
  | n + 1 =>
      match runWorker scalarBaseMult edPublicOfSeed preN postN oracle n with
      | .returned a r => .returned a r
      | .running a =>
          match workerIteration scalarBaseMult edPublicOfSeed preN postN
              false (oracle n) a with
          | (a', .stopped) => .returned a' none
          | (a', .published id) => .returned a' (some id)
          | (a', .retried) => .running a'
          | (a', .continued _) => .running a'

/-- The attempt counter after a worker processes a list of
(stop-flag value, random-draw result) iteration inputs. -/
def runCounter (scalarBaseMult edPublicOfSeed : List Nat → List Nat)
    (preN postN : List Nat) : Nat → List (Bool × RandResult) → Nat
  | a, [] => a
  | a, (fd, r) :: rest =>
      runCounter scalarBaseMult edPublicOfSeed preN postN
        (workerIteration scalarBaseMult edPublicOfSeed preN postN fd r a).1 rest

/-! ## Coordinator / result hand-off (`main` lines 97–109, `worker`
lines 215–221) -/

/-- The non-blocking publish `select { case resultChan <- &identity:
default: }` on the capacity-one channel: if the buffer is free the value
is stored (`true` = delivered), otherwise the buffer is left exactly as
it was and the value is dropped (`false`).  It is a total function: a
publish attempt always completes immediately. -/
def tryPublish (buf : Option Nat) (v : Nat) : Option Nat × Bool :=
  match buf with
  | none => (some v, true)
  | some y => (some y, false)

/-- Whether a worker goroutine is still in its loop or has returned
(its deferred `wg.Done()` has run). -/
inductive WStatus where
  | running
  | finished
deriving Repr, DecidableEq

/-- Shared state of the search: the `found` flag, the capacity-one
result channel's buffer, each worker's status, the identities the
coordinator has received, and the coordinator's position in `main`
(0 = blocked on `<-resultChan`, 1 = about to `StoreUint32(&found,1)`,
2 = blocked on `wg.Wait()`, 3 = returned). -/
structure Sys where
  found : Bool
  buf : Option Nat
  ws : List WStatus
  recvd : List Nat
  pc : Nat
deriving DecidableEq

/-- Interleaving semantics of the coordinator and its workers.
Identities are abstracted to `Nat` labels; a worker step is one whole
loop iteration (the shared-state accesses within it are atomic in the
code). -/
inductive Step : Sys → Sys → Prop where
  | workerStop (s : Sys) (i : Nat) :
      s.ws.getD i .finished = .running → s.found = true →
      Step s { s with ws := s.ws.set i .finished }
  | workerIterate (s : Sys) (i : Nat) :
      s.ws.getD i .finished = .running → s.found = false →
      Step s s
  | workerPublish (s : Sys) (i : Nat) (v : Nat) :
      s.ws.getD i .finished = .running →
      Step s { s with buf := (tryPublish s.buf v).1, ws := s.ws.set i .finished }
  | coordReceive (s : Sys) (v : Nat) :
      s.pc = 0 → s.buf = some v →
      Step s { s with recvd := s.recvd ++ [v], buf := none, pc := 1 }
  | coordSetFound (s : Sys) :
      s.pc = 1 → Step s { s with found := true, pc := 2 }
  | coordReturn (s : Sys) :
      s.pc = 2 → (∀ w ∈ s.ws, w = .finished) →
      Step s { s with pc := 3 }

/-- The initial state of a search with `n` workers. -/
def initSys (n : Nat) : Sys :=
  { found := false, buf := none, ws := List.replicate n .running,
    recvd := [], pc := 0 }

/-- States reachable in a search with `n` workers. -/
def Reachable (n : Nat) (s : Sys) : Prop :=
  Relation.ReflTransGen Step (initSys n) s

/-- Inductive invariant of the search protocol: before the coordinator's
receive nothing has been received, from the receive on exactly one
identity has been received, and once the coordinator has returned every
worker has finished. -/
def SysInv (s : Sys) : Prop :=
  (s.pc = 0 → s.recvd = [])
  ∧ (1 ≤ s.pc → s.recvd.length = 1)
  ∧ (s.pc = 3 → ∀ w ∈ s.ws, w = .finished)

/-! ## Theorems -/

/-- Under a random source that fails on every draw, a worker stays in its
loop forever with the counter at zero. -/
theorem runWorker_err_running (f g : List Nat → List Nat) (pre post : List Nat) :
    ∀ n, runWorker f g pre post (fun _ => .err) n = .running 0 := by
  intro n
  induction n with
  | zero => rfl
  | succ m ih => simp [runWorker, ih, workerIteration]

/-- `C8`: address derivation is deterministic and round-trips: an
identity built by the worker from any 64-byte key material stores
exactly the fingerprint and address that recomputing the derivation from
its stored public-key fields yields, and equal key material yields equal
identities. -/
theorem C8_roundtrip (f g : List Nat → List Nat) (buf buf' : List Nat) :
    workerHash (deriveIdentity f g buf).X25519Public
        (deriveIdentity f g buf).Ed25519Public = (deriveIdentity f g buf).Hash
    ∧ workerAddress (deriveIdentity f g buf).Hash = (deriveIdentity f g buf).Address
    ∧ (buf = buf' → deriveIdentity f g buf = deriveIdentity f g buf') := by
  refine ⟨?_, ?_, fun h => h ▸ rfl⟩ <;> simp only [deriveIdentity]

/-- Witness for `C8_roundtrip` at concrete key material. -/
theorem C8_roundtrip_witness :
    workerHash
        (deriveIdentity (fun _ => List.replicate 32 0) (fun _ => List.replicate 32 1)
          (List.replicate 64 2)).X25519Public
        (deriveIdentity (fun _ => List.replicate 32 0) (fun _ => List.replicate 32 1)
          (List.replicate 64 2)).Ed25519Public
      = (deriveIdentity (fun _ => List.replicate 32 0) (fun _ => List.replicate 32 1)
          (List.replicate 64 2)).Hash
    ∧ workerAddress (deriveIdentity (fun _ => List.replicate 32 0)
          (fun _ => List.replicate 32 1) (List.replicate 64 2)).Hash
      = (deriveIdentity (fun _ => List.replicate 32 0) (fun _ => List.replicate 32 1)
          (List.replicate 64 2)).Address
    ∧ (List.replicate 64 2 = List.replicate 64 2 →
        deriveIdentity (fun _ => List.replicate 32 0) (fun _ => List.replicate 32 1)
          (List.replicate 64 2)
        = deriveIdentity (fun _ => List.replicate 32 0) (fun _ => List.replicate 32 1)
          (List.replicate 64 2)) :=
  C8_roundtrip (fun _ => List.replicate 32 0) (fun _ => List.replicate 32 1)
    (List.replicate 64 2) (List.replicate 64 2)

/-- `C9`: the binary identity file is exactly 64 bytes: the 32-byte
X25519 private key, then the 32-byte Ed25519 seed, and those two writes
are the only ones made to the binary file. -/
theorem C9_binaryFile (id : Identity)
    (h1 : id.X25519Private.length = 32) (h2 : id.Ed25519Seed.length = 32) :
    (binaryFileContent id).length = 64
    ∧ (binaryFileContent id).take 32 = id.X25519Private
    ∧ (binaryFileContent id).drop 32 = id.Ed25519Seed
    ∧ binaryFileWrites id = [id.X25519Private, id.Ed25519Seed] := by
  unfold binaryFileContent binaryFileWrites
  refine ⟨by simp [h1, h2], ?_, ?_, rfl⟩
  · simp only [List.flatten, List.append_nil]
    rw [← h1, List.take_left]
  · simp only [List.flatten, List.append_nil]
    rw [← h1, List.drop_left]

/-- Witness for `C9_binaryFile` at a concrete identity. -/
theorem C9_binaryFile_witness :
    (binaryFileContent ⟨List.replicate 32 7, [], List.replicate 32 9, [], [], []⟩).length = 64
    ∧ (binaryFileContent ⟨List.replicate 32 7, [], List.replicate 32 9, [], [], []⟩).take 32
        = List.replicate 32 7
    ∧ (binaryFileContent ⟨List.replicate 32 7, [], List.replicate 32 9, [], [], []⟩).drop 32
        = List.replicate 32 9
    ∧ binaryFileWrites ⟨List.replicate 32 7, [], List.replicate 32 9, [], [], []⟩
        = [List.replicate 32 7, List.replicate 32 9] :=
  C9_binaryFile ⟨List.replicate 32 7, [], List.replicate 32 9, [], [], []⟩
    (by simp) (by simp)

/-- `C3` (counterexample to the claim as stated): a failed random draw is
answered with `continue` — the worker's iteration outcome is `retried`,
which is not a terminating outcome, and after 1000 consecutive random
failures the worker is still looping with zero attempts counted and no
error surfaced. -/
theorem C3_counterexample :
    workerIteration (fun _ => List.replicate 32 0) (fun _ => List.replicate 32 0)
        [15] [] false .err 0 = (0, .retried)
    ∧ IterOutcome.retried.isTerminal = false
    ∧ runWorker (fun _ => List.replicate 32 0) (fun _ => List.replicate 32 0)
        [15] [] (fun _ => .err) 1000 = .running 0 := by
  exact ⟨rfl, rfl, runWorker_err_running _ _ _ _ 1000⟩

/-- `C3` (amended): a worker whose random draw fails does not proceed —
no identity is derived and the attempt counter is untouched — but the
failure is silently retried: the outcome is `retried` (the loop runs
again), and under a persistently failing random source the worker loops
forever, never terminating and never surfacing an error. -/
theorem C3_rand_error_retries (f g : List Nat → List Nat) (pre post : List Nat)
    (a : Nat) :
    workerIteration f g pre post false .err a = (a, .retried)
    ∧ IterOutcome.retried.isTerminal = false
    ∧ ∀ n, runWorker f g pre post (fun _ => .err) n = .running 0 := by
  exact ⟨rfl, rfl, runWorker_err_running f g pre post⟩

/-- `getD` at the position a `set` wrote (in range) reads the written
value. -/
theorem getD_set_self (l : List Nat) (i a : Nat) (h : i < l.length) :
    (l.set i a).getD i 0 = a := by
  rw [List.getD_eq_getElem?_getD, List.getElem?_set_self h]
  rfl

/-- `getD` at a position a `set` did not write reads the old list. -/
theorem getD_set_ne (l : List Nat) (i j a : Nat) (hij : i ≠ j) :
    (l.set i a).getD j 0 = l.getD j 0 := by
  rw [List.getD_eq_getElem?_getD, List.getElem?_set_ne hij,
    ← List.getD_eq_getElem?_getD]

/-- Byte 0 of a clamped key is the original byte masked with 248. -/
theorem clampX25519_getD_zero (key : List Nat) (h : key.length = 32) :
    (clampX25519 key).getD 0 0 = key.getD 0 0 &&& 248 := by
  simp only [clampX25519]
  rw [getD_set_ne _ _ _ _ (by omega), getD_set_ne _ _ _ _ (by omega),
    getD_set_self _ _ _ (by omega)]

/-- Byte 31 of a clamped key is the original byte masked with 127 then
or-ed with 64. -/
theorem clampX25519_getD_31 (key : List Nat) (h : key.length = 32) :
    (clampX25519 key).getD 31 0 = (key.getD 31 0 &&& 127) ||| 64 := by
  simp only [clampX25519]
  rw [getD_set_self _ _ _ (by simp [h]), getD_set_self _ _ _ (by simp [h]),
    getD_set_ne _ _ _ _ (by omega)]

/-- Bytes other than 0 and 31 are untouched by clamping. -/
theorem clampX25519_getD_middle (key : List Nat) (h : key.length = 32)
    (i : Nat) (h1 : 1 ≤ i) (h2 : i ≤ 30) :
    (clampX25519 key).getD i 0 = key.getD i 0 := by
  simp only [clampX25519]
  rw [getD_set_ne _ _ _ _ (by omega), getD_set_ne _ _ _ _ (by omega),
    getD_set_ne _ _ _ _ (by omega)]

/-- `C4`: clamping clears bits 0–2 of byte 0, clears bit 7 and sets
bit 6 of byte 31, and changes nothing else: bits 3–7 of byte 0, bits of
byte 31 other than 6 and 7, and all bytes 1–30 keep their input values
(bytes are values below 256). -/
theorem C4_clamping (key : List Nat) (h : key.length = 32)
    (hb : ∀ b ∈ key, b < 256) :
    (clampX25519 key).length = 32
    ∧ ((clampX25519 key).getD 0 0).testBit 0 = false
    ∧ ((clampX25519 key).getD 0 0).testBit 1 = false
    ∧ ((clampX25519 key).getD 0 0).testBit 2 = false
    ∧ ((clampX25519 key).getD 31 0).testBit 7 = false
    ∧ ((clampX25519 key).getD 31 0).testBit 6 = true
    ∧ (∀ j, 3 ≤ j → ((clampX25519 key).getD 0 0).testBit j
        = (key.getD 0 0).testBit j)
    ∧ (∀ j, j ≠ 6 → j ≠ 7 → ((clampX25519 key).getD 31 0).testBit j
        = (key.getD 31 0).testBit j)
    ∧ (∀ i, 1 ≤ i → i ≤ 30 → (clampX25519 key).getD i 0 = key.getD i 0) := by
  have hlen : (clampX25519 key).length = 32 := by simp [clampX25519, h]
  have hz := clampX25519_getD_zero key h
  have h31 := clampX25519_getD_31 key h
  have hb0 : key.getD 0 0 < 256 := by
    have : (0 : Nat) < key.length := by omega
    rw [List.getD_eq_getElem _ _ this]
    exact hb _ (List.getElem_mem this)
  have hb31 : key.getD 31 0 < 256 := by
    have : (31 : Nat) < key.length := by omega
    rw [List.getD_eq_getElem _ _ this]
    exact hb _ (List.getElem_mem this)
  refine ⟨hlen, ?_, ?_, ?_, ?_, ?_, ?_, ?_, clampX25519_getD_middle key h⟩
  · rw [hz, Nat.testBit_land]
    have : (248 : Nat).testBit 0 = false := by decide
    simp [this]
  · rw [hz, Nat.testBit_land]
    have : (248 : Nat).testBit 1 = false := by decide
    simp [this]
  · rw [hz, Nat.testBit_land]
    have : (248 : Nat).testBit 2 = false := by decide
    simp [this]
  · rw [h31, Nat.testBit_lor, Nat.testBit_land]
    have e1 : (127 : Nat).testBit 7 = false := by decide
    have e2 : (64 : Nat).testBit 7 = false := by decide
    simp [e1, e2]
  · rw [h31, Nat.testBit_lor]
    have : (64 : Nat).testBit 6 = true := by decide
    simp [this]
  · intro j hj
    rw [hz, Nat.testBit_land]
    by_cases hj8 : j < 8
    · have : (248 : Nat).testBit j = true := by interval_cases j <;> decide
      simp [this]
    · have e1 : (key.getD 0 0).testBit j = false :=
        Nat.testBit_lt_two_pow (lt_of_lt_of_le hb0 (by
          calc (256 : Nat) = 2 ^ 8 := by norm_num
          _ ≤ 2 ^ j := Nat.pow_le_pow_right (by omega) (by omega)))
      have e2 : (248 : Nat).testBit j = false :=
        Nat.testBit_lt_two_pow (by
          calc (248 : Nat) < 2 ^ 8 := by norm_num
          _ ≤ 2 ^ j := Nat.pow_le_pow_right (by omega) (by omega))
      rw [e1, e2]
      rfl
  · intro j hj6 hj7
    rw [h31, Nat.testBit_lor, Nat.testBit_land]
    by_cases hj8 : j < 8
    · have e1 : (127 : Nat).testBit j = true := by
        interval_cases j <;> first | decide | omega
      have e2 : (64 : Nat).testBit j = false := by
        interval_cases j <;> first | decide | omega
      simp [e1, e2]
    · have e1 : (key.getD 31 0).testBit j = false :=
        Nat.testBit_lt_two_pow (lt_of_lt_of_le hb31 (by
          calc (256 : Nat) = 2 ^ 8 := by norm_num
          _ ≤ 2 ^ j := Nat.pow_le_pow_right (by omega) (by omega)))
      have e2 : (127 : Nat).testBit j = false :=
        Nat.testBit_lt_two_pow (by
          calc (127 : Nat) < 2 ^ 8 := by norm_num
          _ ≤ 2 ^ j := Nat.pow_le_pow_right (by omega) (by omega))
      have e3 : (64 : Nat).testBit j = false :=
        Nat.testBit_lt_two_pow (by
          calc (64 : Nat) < 2 ^ 8 := by norm_num
          _ ≤ 2 ^ j := Nat.pow_le_pow_right (by omega) (by omega))
      rw [e1, e2, e3]
      rfl

/-- Each worker iteration leaves the counter alone or bumps it by one
modulo 2^64. -/
theorem workerIteration_counter (f g : List Nat → List Nat)
    (pre post : List Nat) (fd : Bool) (r : RandResult) (a : Nat) :
    (workerIteration f g pre post fd r a).1 = a
    ∨ (workerIteration f g pre post fd r a).1 = (a + 1) % 2 ^ 64 := by
  unfold workerIteration
  by_cases hf : fd
  · simp [hf]
  · cases r with
    | err => simp [hf]
    | ok buf =>
        simp only [hf, if_false, Bool.false_eq_true]
        by_cases hm : matchesPattern pre post (deriveIdentity f g buf).Address
    <;> simp [hm]

/-- Splitting a run of the counter at a prefix. -/
theorem runCounter_append (f g : List Nat → List Nat) (pre post : List Nat) :
    ∀ (l1 l2 : List (Bool × RandResult)) (a : Nat),
      runCounter f g pre post a (l1 ++ l2)
        = runCounter f g pre post (runCounter f g pre post a l1) l2 := by
  intro l1
  induction l1 with
  | nil => intro l2 a; rfl
  | cons hd tl ih =>
      intro l2 a
      obtain ⟨fd, r⟩ := hd
      simp only [List.cons_append, runCounter]
      exact ih l2 _

/-- The counter grows by at most the number of iterations run. -/
theorem runCounter_le (f g : List Nat → List Nat) (pre post : List Nat) :
    ∀ (l : List (Bool × RandResult)) (a : Nat),
      runCounter f g pre post a l ≤ a + l.length := by
  intro l
  induction l with
  | nil => intro a; simp [runCounter]
  | cons hd tl ih =>
      intro a
      obtain ⟨fd, r⟩ := hd
      simp only [runCounter, List.length_cons]
      rcases workerIteration_counter f g pre post fd r a with hc | hc
      · calc runCounter f g pre post (workerIteration f g pre post fd r a).1 tl
            ≤ (workerIteration f g pre post fd r a).1 + tl.length := ih _
          _ ≤ a + (tl.length + 1) := by omega
      · calc runCounter f g pre post (workerIteration f g pre post fd r a).1 tl
            ≤ (workerIteration f g pre post fd r a).1 + tl.length := ih _
          _ ≤ (a + 1) % 2 ^ 64 + tl.length := by omega
          _ ≤ a + (tl.length + 1) := by
              have := Nat.mod_le (a + 1) (2 ^ 64)
              omega

/-- As long as the counter cannot wrap, it never decreases across a run. -/
theorem runCounter_mono (f g : List Nat → List Nat) (pre post : List Nat) :
    ∀ (l : List (Bool × RandResult)) (a : Nat), a + l.length < 2 ^ 64 →
      a ≤ runCounter f g pre post a l := by
  intro l
  induction l with
  | nil => intro a _; simp [runCounter]
  | cons hd tl ih =>
      intro a hbound
      obtain ⟨fd, r⟩ := hd
      simp only [runCounter]
      simp only [List.length_cons] at hbound
      rcases workerIteration_counter f g pre post fd r a with hc | hc
      · rw [hc]
        exact ih a (by omega)
      · rw [hc, Nat.mod_eq_of_lt (by omega)]
        calc a ≤ a + 1 := by omega
          _ ≤ runCounter f g pre post (a + 1) tl := ih (a + 1) (by omega)

/-- `C7`: the attempt counter is non-decreasing across any run of worker
iterations (while it cannot wrap), every completed iteration — one that
actually draws bytes and reaches the pattern test, match or not —
increments it by exactly one, and an iteration that stops early (stop
flag set, or failed random draw) leaves it untouched. -/
theorem C7_counter_monotone (f g : List Nat → List Nat) (pre post : List Nat)
    (a : Nat) (l : List (Bool × RandResult))
    (h : a + l.length + 1 < 2 ^ 64) :
    (∀ l1 l2, l = l1 ++ l2 →
      runCounter f g pre post a l1 ≤ runCounter f g pre post a l)
    ∧ (∀ buf, (workerIteration f g pre post false (.ok buf) a).1 = a + 1)
    ∧ (workerIteration f g pre post false .err a).1 = a
    ∧ (∀ r, (workerIteration f g pre post true r a).1 = a) := by
  refine ⟨?_, ?_, rfl, fun r => rfl⟩
  · intro l1 l2 hsplit
    subst hsplit
    rw [runCounter_append]
    apply runCounter_mono
    have h1 := runCounter_le f g pre post l1 a
    simp only [List.length_append] at h
    omega
  · intro buf
    unfold workerIteration
    have hm : (a + 1) % 2 ^ 64 = a + 1 := Nat.mod_eq_of_lt (by omega)
    by_cases hmatch : matchesPattern pre post (deriveIdentity f g buf).Address
    <;> simp [hmatch, hm] <;> omega

/-- Witness for `C7_counter_monotone` at a concrete run. -/
theorem C7_counter_monotone_witness :
    (0 + ([(false, RandResult.err), (true, RandResult.err)] :
        List (Bool × RandResult)).length + 1 < 2 ^ 64)
    ∧ ((∀ l1 l2, ([(false, RandResult.err), (true, RandResult.err)] :
          List (Bool × RandResult)) = l1 ++ l2 →
        runCounter (fun _ => []) (fun _ => []) [] [] 0 l1
          ≤ runCounter (fun _ => []) (fun _ => []) [] [] 0
              [(false, RandResult.err), (true, RandResult.err)])
      ∧ (∀ buf, (workerIteration (fun _ => []) (fun _ => []) [] [] false
          (.ok buf) 0).1 = 0 + 1)
      ∧ (workerIteration (fun _ => []) (fun _ => []) [] [] false .err 0).1 = 0
      ∧ (∀ r, (workerIteration (fun _ => []) (fun _ => []) [] [] true r 0).1
          = 0)) :=
  ⟨by norm_num,
    C7_counter_monotone (fun _ => []) (fun _ => []) [] [] 0
      [(false, RandResult.err), (true, RandResult.err)] (by norm_num)⟩

/-- A `goCopy` result has the destination's length. -/
theorem goCopy_length (dst : List Nat) (pos : Nat) (src : List Nat) :
    (goCopy dst pos src).length = dst.length := by
  simp [goCopy]

/-- Copying `src` to the start of a long enough buffer overwrites its
first `src.length` bytes and keeps the rest. -/
theorem goCopy_start (dst src : List Nat) (h : src.length ≤ dst.length) :
    goCopy dst 0 src = src ++ dst.drop src.length := by
  apply List.ext_getElem
  · simp [goCopy]
    omega
  · intro i h1 h2
    simp only [goCopy, List.getElem_map, List.getElem_range]
    simp only [goCopy, List.length_map, List.length_range] at h1
    by_cases hc : i < src.length
    · rw [if_pos ⟨Nat.zero_le i, by omega⟩, List.getElem_append_left hc]
      simpa using List.getD_eq_getElem src 0 hc
    · rw [if_neg (by omega), List.getElem_append_right (by omega)]
      rw [List.getElem_drop]
      rw [List.getD_eq_getElem _ _ h1]
      congr 1
      omega

/-- Copying `src` so that it ends exactly at the end of the buffer
overwrites the tail and keeps the first `pos` bytes. -/
theorem goCopy_end (dst src : List Nat) (pos : Nat)
    (h : dst.length = pos + src.length) :
    goCopy dst pos src = dst.take pos ++ src := by
  apply List.ext_getElem
  · simp [goCopy]
    omega
  · intro i h1 h2
    simp only [goCopy, List.getElem_map, List.getElem_range]
    simp only [goCopy, List.length_map, List.length_range] at h1
    by_cases hc : i < pos
    · rw [if_neg (by omega),
        List.getElem_append_left (by simp [List.length_take]; omega)]
      rw [List.getElem_take]
      exact List.getD_eq_getElem _ _ h1
    · rw [if_pos ⟨by omega, by omega⟩,
        List.getElem_append_right (by simp [List.length_take]; omega)]
      have hlt : i - pos < src.length := by omega
      rw [List.getD_eq_getElem _ _ hlt]
      congr 1
      simp only [List.length_take]
      omega

/-- The worker's 64-byte `publicKey` buffer is the two public keys
concatenated. -/
theorem workerPublicKeyBuf_eq (xpub epub : List Nat)
    (h1 : xpub.length = 32) (h2 : epub.length = 32) :
    workerPublicKeyBuf xpub epub = xpub ++ epub := by
  unfold workerPublicKeyBuf
  rw [goCopy_start _ _ (by simp [h1]), List.drop_replicate]
  rw [goCopy_end _ _ _ (by simp [h1, h2])]
  rw [List.take_append_of_le_length (by simp [h1]),
    List.take_of_length_le (by simp [h1])]

/-- The value of the constant 10-byte LXMF name hash. -/
theorem nameHash_val :
    nameHash = [110, 198, 11, 195, 24, 226, 192, 240, 217, 8] := by decide

/-- The worker's 26-byte `addrHashMaterial` buffer is the name hash and
the fingerprint concatenated. -/
theorem workerAddrMaterial_eq (hash : List Nat) (h : hash.length = 16) :
    workerAddrMaterial hash = nameHash ++ hash := by
  have hn : nameHash.length = 10 := by rw [nameHash_val]; rfl
  unfold workerAddrMaterial
  rw [goCopy_start _ _ (by simp [hn]), List.drop_replicate]
  rw [goCopy_end _ _ _ (by simp [hn, h])]
  rw [List.take_append_of_le_length (by simp [hn]),
    List.take_of_length_le (by simp [hn])]

/-- `C1`: the derivation chain of `worker` is the spec's exact three-step
truncated-SHA-256 chain: for 32-byte public keys the stored fingerprint
is the first 16 bytes of SHA-256 of exchange-then-signing public keys,
the address of a 16-byte fingerprint is the first 16 bytes of SHA-256 of
the 10-byte name hash followed by the fingerprint, and the name hash is
the first 10 bytes of SHA-256 of the ASCII string `"lxmf.delivery"`. -/
theorem C1_address_derivation (xpub epub fp : List Nat)
    (h1 : xpub.length = 32) (h2 : epub.length = 32) (h3 : fp.length = 16) :
    workerHash xpub epub = spec_fingerprint xpub epub
    ∧ workerAddress fp = spec_address fp
    ∧ nameHash = (sha256 lxmfDeliveryBytes).take 10 := by
  refine ⟨?_, ?_, rfl⟩
  · unfold workerHash spec_fingerprint
    rw [workerPublicKeyBuf_eq xpub epub h1 h2]
  · unfold workerAddress spec_address
    rw [workerAddrMaterial_eq fp h3]
    rfl

/-- Witness for `C1_address_derivation` at concrete 32-byte keys and a
concrete 16-byte fingerprint. -/
theorem C1_address_derivation_witness :
    ((List.replicate 32 3 : List Nat).length = 32
      ∧ (List.replicate 32 5 : List Nat).length = 32
      ∧ (List.replicate 16 9 : List Nat).length = 16)
    ∧ (workerHash (List.replicate 32 3) (List.replicate 32 5)
        = spec_fingerprint (List.replicate 32 3) (List.replicate 32 5)
      ∧ workerAddress (List.replicate 16 9) = spec_address (List.replicate 16 9)
      ∧ nameHash = (sha256 lxmfDeliveryBytes).take 10) :=
  ⟨⟨by simp, by simp, by simp⟩,
    C1_address_derivation (List.replicate 32 3) (List.replicate 32 5)
      (List.replicate 16 9) (by simp) (by simp) (by simp)⟩

/-- Shift-and-mask nibble extraction agrees with arithmetic nibble
extraction on bytes. -/
theorem nibble_arith : ∀ b < 256, (b >>> 4) &&& 15 = b / 16 ∧ b &&& 15 = b % 16 := by
  set_option maxRecDepth 4000 in decide

/-- On an address of bytes, the code's nibble extraction is the spec's
high/low-nibble rule. -/
theorem extractNibble_eq_specNibble (addr : List Nat)
    (hb : ∀ b ∈ addr, b < 256) (i : Nat) :
    extractNibble addr i = specNibble addr i := by
  have hbyte : addr.getD (i / 2) 0 < 256 := by
    by_cases hlt : i / 2 < addr.length
    · rw [List.getD_eq_getElem _ _ hlt]
      exact hb _ (List.getElem_mem hlt)
    · rw [List.getD_eq_default _ _ (by omega)]
      omega
  unfold extractNibble specNibble
  by_cases he : i % 2 = 0
  · simp only [he, beq_self_eq_true, if_true, Nat.zero_mod]
    exact (nibble_arith _ hbyte).1
  · rw [if_neg (by simpa using he), if_neg he]
    exact (nibble_arith _ hbyte).2

/-- `C2`: `matchesPattern` accepts exactly when every prefix nibble
matches the corresponding address nibble from position 0 and every
suffix nibble matches the corresponding address nibble ending at
position 31 (nibbles by the even-high/odd-low rule), with an empty
sequence passing trivially. -/
theorem C2_matchesPattern (pre post addr : List Nat)
    (ha : addr.length = 16) (hb : ∀ b ∈ addr, b < 256)
    (hp : pre.length ≤ 32) (hq : post.length ≤ 32) :
    matchesPattern pre post addr = true ↔
      ((∀ i, i < pre.length → specNibble addr i = pre.getD i 0)
       ∧ (∀ j, j < post.length →
            specNibble addr (32 - post.length + j) = post.getD j 0)) := by
  unfold matchesPattern
  rw [Bool.and_eq_true]
  apply and_congr
  · by_cases hlen : pre.length > 0
    · rw [if_pos hlen, List.all_eq_true]
      constructor
      · intro hall i hi
        have := hall i (List.mem_range.mpr hi)
        rw [← extractNibble_eq_specNibble addr hb i]
        simpa using this
      · intro hptwise i hmem
        have hi := List.mem_range.mp hmem
        rw [extractNibble_eq_specNibble addr hb i]
        simpa using hptwise i hi
    · rw [if_neg hlen]
      constructor
      · intro _ i hi
        omega
      · intro _
        rfl
  · by_cases hlen : post.length > 0
    · rw [if_pos hlen, List.all_eq_true]
      have hstart : addr.length * 2 - post.length = 32 - post.length := by
        rw [ha]
      constructor
      · intro hall j hj
        have := hall j (List.mem_range.mpr hj)
        rw [← extractNibble_eq_specNibble addr hb, ← hstart]
        simpa using this
      · intro hptwise j hmem
        have hj := List.mem_range.mp hmem
        rw [extractNibble_eq_specNibble addr hb, hstart]
        simpa using hptwise j hj
    · rw [if_neg hlen]
      constructor
      · intro _ j hj
        omega
      · intro _
        rfl

/-- Witness for `C2_matchesPattern` at a concrete address and pattern. -/
theorem C2_matchesPattern_witness :
    ((List.replicate 15 0 ++ [190] : List Nat).length = 16
      ∧ ([11, 14] : List Nat).length ≤ 32)
    ∧ (matchesPattern [0] [11, 14] (List.replicate 15 0 ++ [190]) = true ↔
        ((∀ i, i < ([0] : List Nat).length →
            specNibble (List.replicate 15 0 ++ [190]) i = [0].getD i 0)
         ∧ (∀ j, j < ([11, 14] : List Nat).length →
            specNibble (List.replicate 15 0 ++ [190]) (32 - 2 + j)
              = [11, 14].getD j 0))) :=
  ⟨⟨by simp, by simp⟩,
    C2_matchesPattern [0] [11, 14] (List.replicate 15 0 ++ [190])
      (by simp) (by decide) (by simp) (by simp)⟩

/-- Witness for `C4_clamping` at a concrete all-ones key. -/
theorem C4_clamping_witness :
    (List.replicate 32 255 : List Nat).length = 32
    ∧ (clampX25519 (List.replicate 32 255)).length = 32
    ∧ ((clampX25519 (List.replicate 32 255)).getD 0 0).testBit 0 = false
    ∧ ((clampX25519 (List.replicate 32 255)).getD 31 0).testBit 6 = true := by
  have := C4_clamping (List.replicate 32 255) (by simp)
    (by intro b hb; rw [List.eq_of_mem_replicate hb]; omega)
  exact ⟨by simp, this.1, this.2.1, this.2.2.2.2.2.1⟩

/-- `C6`: `validateInputs` reports an error exactly when a pattern
string has a non-hex character or is longer than 32 characters, or both
patterns are empty, or the worker count is below 1; `main` reaches the
search phase (spawning workers) exactly when validation reports no
error, and surfaces exactly the validation error otherwise. -/
theorem C6_validateInputs (pre post : List Nat) (w : Int) :
    ((validateInputs pre post w).isSome ↔
      (isHex pre = false ∨ 32 < pre.length)
      ∨ (isHex post = false ∨ 32 < post.length)
      ∨ (pre = [] ∧ post = []) ∨ w < 1)
    ∧ (isHex pre = false ↔ ∃ c ∈ pre,
        ¬ ((48 ≤ c ∧ c ≤ 57) ∨ (97 ≤ c ∧ c ≤ 102) ∨ (65 ≤ c ∧ c ≤ 70)))
    ∧ (∀ e : String, mainStart pre post w = .configError e
        ↔ validateInputs pre post w = some e)
    ∧ (mainStart pre post w = .search w ↔ validateInputs pre post w = none) := by
  refine ⟨?_, ?_, ?_, ?_⟩
  · unfold validateInputs
    split_ifs with h1 h2 h3 h4 h5 h6 <;>
      simp_all [Option.isSome] <;>
      by_cases hpree : pre = [] <;> by_cases hposte : post = [] <;>
      simp_all [isHex] <;> omega
  · rw [Bool.eq_false_iff]
    simp only [ne_eq, isHex, List.all_eq_true, not_forall, Classical.not_imp,
      Bool.or_eq_true, Bool.and_eq_true, decide_eq_true_eq]
    constructor <;> rintro ⟨c, hc, hv⟩ <;> exact ⟨c, hc, by tauto⟩
  · intro e
    unfold mainStart
    cases hv : validateInputs pre post w <;> simp [hv]
  · unfold mainStart
    cases hv : validateInputs pre post w <;> simp [hv]

/-- Pointwise: lowercasing a hex character then parsing it with the
code's two-branch rule yields the character's hex value. -/
theorem hexChar_lower_value (c : Nat)
    (hc : (48 ≤ c ∧ c ≤ 57) ∨ (97 ≤ c ∧ c ≤ 102) ∨ (65 ≤ c ∧ c ≤ 70)) :
    (if 48 ≤ asciiToLower c ∧ asciiToLower c ≤ 57 then asciiToLower c - 48
     else if 97 ≤ asciiToLower c ∧ asciiToLower c ≤ 102 then
       asciiToLower c - 97 + 10
     else 0) = hexDigitValue c := by
  unfold asciiToLower hexDigitValue
  rcases hc with h | h | h <;> split_ifs <;> omega

/-- `C10`: `hexToNibbles` preserves length, maps `'0'`–`'9'` and
`'a'`–`'f'` to their hex values, silently maps every other character —
including upper-case `'A'`–`'F'` — to nibble 0, and therefore parses
correctly exactly because `main` lowercases the (validated) pattern
before calling it. -/
theorem C10_hexToNibbles (s : List Nat) (hhex : isHex s = true) :
    hexToNibbles (s.map asciiToLower) = s.map hexDigitValue
    ∧ (∀ t : List Nat, (hexToNibbles t).length = t.length)
    ∧ (∀ c : Nat, 48 ≤ c → c ≤ 57 → hexToNibbles [c] = [c - 48])
    ∧ (∀ c : Nat, 97 ≤ c → c ≤ 102 → hexToNibbles [c] = [c - 97 + 10])
    ∧ (∀ c : Nat, ¬ ((48 ≤ c ∧ c ≤ 57) ∨ (97 ≤ c ∧ c ≤ 102)) →
        hexToNibbles [c] = [0])
    ∧ hexToNibbles [65, 70] = [0, 0] := by
  refine ⟨?_, ?_, ?_, ?_, ?_, by decide⟩
  · unfold hexToNibbles
    rw [List.map_map]
    apply List.map_congr_left
    intro c hcmem
    rw [isHex, List.all_eq_true] at hhex
    have hc := hhex c hcmem
    simp only [Bool.or_eq_true, Bool.and_eq_true, decide_eq_true_eq] at hc
    exact hexChar_lower_value c (by tauto)
  · intro t
    simp [hexToNibbles]
  · intro c hc1 hc2
    simp [hexToNibbles, hc1, hc2]
  · intro c hc1 hc2
    unfold hexToNibbles
    simp only [List.map]
    rw [if_neg (by omega), if_pos ⟨hc1, hc2⟩]
  · intro c hc
    unfold hexToNibbles
    simp only [List.map]
    rw [if_neg (by tauto), if_neg (by tauto)]

/-- Witness for `C10_hexToNibbles` on the hex string `"0fF"`. -/
theorem C10_hexToNibbles_witness :
    isHex [48, 102, 70] = true
    ∧ hexToNibbles ([48, 102, 70].map asciiToLower)
        = [48, 102, 70].map hexDigitValue :=
  ⟨by decide, (C10_hexToNibbles [48, 102, 70] (by decide)).1⟩

/-- The invariant holds initially. -/
theorem sysInv_init (n : Nat) : SysInv (initSys n) := by
  refine ⟨fun _ => rfl, fun h => ?_, fun h => ?_⟩
  · simp [initSys] at h
  · simp [initSys] at h

/-- Every protocol step preserves the invariant. -/
theorem sysInv_step {s s' : Sys} (hstep : Step s s') (hinv : SysInv s) :
    SysInv s' := by
  obtain ⟨i1, i2, i3⟩ := hinv
  cases hstep with
  | workerStop i hrun hfound =>
      refine ⟨i1, i2, fun h3 w hw => ?_⟩
      rcases List.mem_or_eq_of_mem_set hw with hmem | heq
      · exact i3 h3 w hmem
      · exact heq
  | workerIterate i hrun hfound =>
      exact ⟨i1, i2, i3⟩
  | workerPublish i v hrun =>
      refine ⟨i1, i2, fun h3 w hw => ?_⟩
      rcases List.mem_or_eq_of_mem_set hw with hmem | heq
      · exact i3 h3 w hmem
      · exact heq
  | coordReceive v hpc hbuf =>
      refine ⟨fun h0 => absurd h0 (by simp), fun _ => ?_,
        fun h3 => absurd h3 (by simp)⟩
      show (s.recvd ++ [v]).length = 1
      rw [i1 hpc]
      rfl
  | coordSetFound hpc =>
      exact ⟨fun h0 => absurd h0 (by simp), fun _ => i2 (by omega),
        fun h3 => absurd h3 (by simp)⟩
  | coordReturn hpc hws =>
      exact ⟨fun h0 => absurd h0 (by simp), fun _ => i2 (by omega),
        fun _ => hws⟩

/-- Every reachable state satisfies the invariant. -/
theorem sysInv_reachable {n : Nat} {s : Sys} (h : Reachable n s) : SysInv s := by
  induction h with
  | refl => exact sysInv_init n
  | tail hsteps hstep ih => exact sysInv_step hstep ih

/-- `C5`: in every reachable state of a search with at least two workers,
at most one identity has ever been accepted by the coordinator; when the
coordinator has returned it holds exactly one identity and every worker
has terminated; a publish into an occupied slot leaves the slot's value
in place and reports the value dropped; and the non-blocking publish
step is enabled for every running worker in every state. -/
theorem C5_single_result (n : Nat) (s : Sys) (hn : 2 ≤ n)
    (hr : Reachable n s) :
    s.recvd.length ≤ 1
    ∧ (s.pc = 3 → s.recvd.length = 1 ∧ ∀ w ∈ s.ws, w = .finished)
    ∧ (∀ y v, tryPublish (some y) v = (some y, false))
    ∧ (∀ i v, s.ws.getD i .finished = .running →
        Step s { s with buf := (tryPublish s.buf v).1,
                        ws := s.ws.set i .finished }) := by
  obtain ⟨i1, i2, i3⟩ := sysInv_reachable hr
  refine ⟨?_, fun h3 => ⟨i2 (by omega), i3 h3⟩, fun y v => rfl,
    fun i v hrun => Step.workerPublish s i v hrun⟩
  by_cases h0 : s.pc = 0
  · rw [i1 h0]
    simp
  · rw [i2 (by omega)]

/-- Witness for `C5_single_result` at the initial state of a two-worker
search. -/
theorem C5_single_result_witness :
    (2 ≤ 2 ∧ Reachable 2 (initSys 2))
    ∧ ((initSys 2).recvd.length ≤ 1
      ∧ ((initSys 2).pc = 3 →
          (initSys 2).recvd.length = 1 ∧ ∀ w ∈ (initSys 2).ws, w = .finished)
      ∧ (∀ y v, tryPublish (some y) v = (some y, false))
      ∧ (∀ i v, (initSys 2).ws.getD i .finished = .running →
          Step (initSys 2)
            { initSys 2 with buf := (tryPublish (initSys 2).buf v).1,
                             ws := (initSys 2).ws.set i .finished })) :=
  ⟨⟨by omega, by exact Relation.ReflTransGen.refl⟩,
    C5_single_result 2 (initSys 2) (by omega) (by exact Relation.ReflTransGen.refl)⟩

end LXMF
